import Mathlib

/-!
Verification of the ClientCache module (`ClientCache.ts`) of the Spyglass
datapack language server: the nested identifier index, its merge / trim /
remap / point-query operations, and the glob-based visibility resolver.

Modelling conventions:
* JavaScript objects used as string-keyed dictionaries (`ClientCache`,
  `CacheCategory`) are modelled as association lists in insertion order,
  which is exactly the iteration order of `Object.keys` for the
  non-numeric keys this module uses.  Key update keeps the key's slot,
  a new key is appended at the end, `delete` removes the binding —
  mirroring JavaScript object semantics.
* Optional fields (`doc?`, `dcl?`, …) are `Option`s; `x ?? d` is
  `Option.getD`, and the truthiness test on a possibly-empty string is
  an explicit emptiness check.
* TypeScript string-literal union types (`CacheType`, `FileType`) are
  erased at runtime, where all comparisons are plain string comparisons;
  they are therefore modelled as `String` together with the source's own
  classification predicates (`isFileType`, …).
* Machine integers do not occur: all offsets are non-negative JavaScript
  numbers used only for comparison, modelled as `Nat`.
-/

/-- `TextRange` from `types/TextRange.ts`: a pair of offsets.
The source field `end` is a Lean keyword and is called `stop` here. -/
structure TextRange where
  start : Nat
  stop : Nat
deriving DecidableEq, Repr

/-- `CacheVisibility`: a glob pattern plus a target file type, where the
string representation of the type may be the wildcard `"*"`. -/
structure CacheVisibility where
  type : String
  pattern : String
deriving DecidableEq, Repr

/-- `CachePosition`: an element of a `CacheUnit` (source lines 142–156).
The source field `end` is called `stop` here. -/
structure CachePosition where
  start : Nat
  stop : Nat
  uri : Option String
  visibility : Option (List CacheVisibility)
  scope : Option TextRange
  startLine : Option Nat
  startChar : Option Nat
  endLine : Option Nat
  endChar : Option Nat
deriving DecidableEq, Repr

/-- `CacheUnit`: the three optional position sequences plus optional
documentation (source lines 130–135).  The source field `def` is a Lean
keyword and is called `def_` here. -/
structure CacheUnit where
  doc : Option String
  dcl : Option (List CachePosition)
  def_ : Option (List CachePosition)
  ref : Option (List CachePosition)
deriving DecidableEq, Repr

/-- The unit with every field absent, i.e. the JavaScript literal used to
seed a fresh unit. -/
def emptyUnit : CacheUnit := ⟨none, none, none, none⟩

/-- The three position kinds, `CacheUnitPositionType` in the source. -/
inductive PosKind where
  | dcl
  | def_
  | ref
deriving DecidableEq, Repr

/-- `CacheUnitPositionTypes`, in source order. -/
def CacheUnitPositionTypes : List PosKind := [PosKind.dcl, PosKind.def_, PosKind.ref]

/-- Field access `unit[t]` for a position kind `t`. -/
def kindGet (u : CacheUnit) : PosKind → Option (List CachePosition)
  | PosKind.dcl => u.dcl
  | PosKind.def_ => u.def_
  | PosKind.ref => u.ref

/-- Field update `unit[t] = v` for a position kind `t`. -/
def kindSet (u : CacheUnit) : PosKind → Option (List CachePosition) → CacheUnit
  | PosKind.dcl, v => { u with dcl := v }
  | PosKind.def_, v => { u with def_ := v }
  | PosKind.ref, v => { u with ref := v }

/-- `CacheCategory`: identifier string → unit, in insertion order. -/
abbrev CacheCategory : Type := List (String × CacheUnit)

/-- `ClientCache`: cache-type string → category, in insertion order. -/
abbrev ClientCache : Type := List (String × CacheCategory)

/-- Property lookup `obj[k]` on a string-keyed JavaScript object modelled
as an association list: the first (unique) binding wins. -/
def lookupKey {α : Type} : List (String × α) → String → Option α
  | [], _ => none
  | e :: rest, k => if e.1 = k then some e.2 else lookupKey rest k

/-- Property write `obj[k] = v`: an existing key keeps its slot, a new
key is appended at the end, as in JavaScript objects. -/
def setKey {α : Type} : List (String × α) → String → α → List (String × α)
  | [], k, v => [(k, v)]
  | e :: rest, k, v => if e.1 = k then (k, v) :: rest else e :: setKey rest k v

/-- Look a unit up through both levels of the cache. -/
def lookupUnit (cache : ClientCache) (type id : String) : Option CacheUnit :=
  (lookupKey cache type).bind fun category => lookupKey category id

/-! ## The glob matcher behind `testID`

`testID` compiles a visibility pattern into an anchored JavaScript regular
expression by the textual substitutions (source lines 400–404, applied in
this order): `?` → one char other than `:` `/`; `**/` and `**` → any run
of chars; `*` → a run of chars other than `:` `/`.  Because no replacement
text reintroduces `*` or `?`, the four sequential global replaces are
equivalent to one left-to-right scan, which is what `compilePattern` does.
Characters the substitution leaves alone reach the regex engine verbatim;
the model gives `.` its regex meaning (any character — the source never
escapes it, the limitation its spec documents) and treats every other
character as a literal.  Theorems quantifying over identities therefore
carry a `plainChar` hypothesis restricting them to characters on which
this model agrees with the JavaScript regex engine. -/

/-- One token of the compiled pattern. -/
inductive GlobTok where
  | lit (c : Char)
  | anyOne
  | notSep
  | anyStar
  | notSepStar
deriving DecidableEq, Repr

/-- Tokenise a visibility pattern exactly as the chain of `replace` calls
in `testID` does. -/
def compilePattern : List Char → List GlobTok
  | [] => []
  | '?' :: rest => GlobTok.notSep :: compilePattern rest
  | '*' :: '*' :: '/' :: rest => GlobTok.anyStar :: compilePattern rest
  | '*' :: '*' :: rest => GlobTok.anyStar :: compilePattern rest
  | '*' :: rest => GlobTok.notSepStar :: compilePattern rest
  | '.' :: rest => GlobTok.anyOne :: compilePattern rest
  | c :: rest => GlobTok.lit c :: compilePattern rest

/-- Is `c` excluded by the character class standing for `?` and `*`? -/
def isSep (c : Char) : Bool := c == ':' || c == '/'

/-- `matchStarAny k s`: does some split `s = a ++ b` satisfy `k b`?
This is the anchored-match semantics of the regex piece standing for
`**` followed by the rest of the pattern (`k`). -/
def matchStarAny (k : List Char → Bool) : List Char → Bool
  | [] => k []
  | x :: xs => k (x :: xs) || matchStarAny k xs

/-- `matchStarNotSep k s`: does some split `s = a ++ b` with `a` free of
`:` `/` satisfy `k b`?  The semantics of the piece standing for `*`. -/
def matchStarNotSep (k : List Char → Bool) : List Char → Bool
  | [] => k []
  | x :: xs => k (x :: xs) || (!isSep x && matchStarNotSep k xs)

/-- Anchored match of a compiled pattern against a character list: the
semantics of `regex.test` on the fully-anchored regex `testID` builds. -/
def globMatch : List GlobTok → List Char → Bool
  | [], s => s.isEmpty
  | GlobTok.lit c :: ts, s =>
    match s with
    | [] => false
    | x :: xs => x == c && globMatch ts xs
  | GlobTok.anyOne :: ts, s =>
    match s with
    | [] => false
    | _ :: xs => globMatch ts xs
  | GlobTok.notSep :: ts, s =>
    match s with
    | [] => false
    | x :: xs => !isSep x && globMatch ts xs
  | GlobTok.anyStar :: ts, s => matchStarAny (globMatch ts) s
  | GlobTok.notSepStar :: ts, s => matchStarNotSep (globMatch ts) s

/-- Characters on which the glob model provably coincides with the
JavaScript regex built by `testID`: alphanumeric characters and the four
identifier punctuation marks, none of which is a regex or glob
metacharacter. -/
def plainChar (c : Char) : Bool :=
  c.isAlphanum || c == ':' || c == '/' || c == '_' || c == '-'

/-! ## Identities and the external service

`IdentityNode`, `Config` and `DatapackLanguageService` live outside the
sampled sources; only the operations the cache module calls are needed. -/

/-- Modelled from the spec: an identity is a namespaced identifier string
`namespace:path`, with a default namespace used when omitted (glossary,
§3).  The repository's `IdentityNode` class is not under `src/`; only the
members the cache module uses — `toString`, `getNamespace`,
`DefaultNamespace` — are modelled. -/
structure IdentityNode where
  ns : Option String
  path : String
deriving DecidableEq, Repr

/-- Modelled from the spec: the default namespace of identities. -/
def IdentityNode.DefaultNamespace : String := "minecraft"

/-- Modelled from the spec: the identity's namespace, defaulted. -/
def IdentityNode.getNamespace (id : IdentityNode) : String :=
  id.ns.getD IdentityNode.DefaultNamespace

/-- Modelled from the spec: the identity's full string form
`namespace:path` (source's `IdentityNode.prototype.toString`). -/
def IdentityNode.toStr (id : IdentityNode) : String :=
  id.getNamespace ++ ":" ++ id.path

/-- `isTagFileType` (source lines 275–283), on runtime strings. -/
def isTagFileType (type : String) : Bool :=
  type == "tag/block" ||
  type == "tag/entity_type" ||
  type == "tag/fluid" ||
  type == "tag/function" ||
  type == "tag/item"

/-- `isWorldgenRegistryFileType` (source lines 285–296). -/
def isWorldgenRegistryFileType (type : String) : Bool :=
  type == "worldgen/biome" ||
  type == "worldgen/configured_carver" ||
  type == "worldgen/configured_decorator" ||
  type == "worldgen/configured_feature" ||
  type == "worldgen/configured_structure_feature" ||
  type == "worldgen/configured_surface_builder" ||
  type == "worldgen/processor_list" ||
  type == "worldgen/template_pool"

/-- `isFileType` (source lines 298–310). -/
def isFileType (type : String) : Bool :=
  type == "advancement" ||
  type == "dimension" ||
  type == "dimension_type" ||
  type == "function" ||
  type == "loot_table" ||
  type == "predicate" ||
  type == "recipe" ||
  isTagFileType type ||
  isWorldgenRegistryFileType type

/-- The three source-level visibility tiers.  `private` and `public` are
Lean keywords, hence the constructor names. -/
inductive VisTier where
  | priv
  | internal
  | pub
deriving DecidableEq, Repr

/-- The default-visibility configuration value: a bare tier string, a
single rule object, or an array of rule objects (the shapes
`typeof defaultConfig` distinguishes in `testID`). -/
inductive DefaultVisibility where
  | tier (t : VisTier)
  | one (v : CacheVisibility)
  | many (vs : List CacheVisibility)
deriving DecidableEq, Repr

/-- Modelled from the spec: the slice of `Config` the cache module reads
(`config.env.defaultVisibility`); the configuration type itself is not
under `src/` (§6: configuration supplies the default visibility tier or
explicit rule set). -/
structure ConfigEnv where
  defaultVisibility : DefaultVisibility
deriving DecidableEq, Repr

/-- Modelled from the spec: the configuration record, of which only
`env.defaultVisibility` is consumed here. -/
structure Config where
  env : ConfigEnv
deriving DecidableEq, Repr

/-- `GetIdResult`: what `service.getId` reports for a document — its
category (a file type string) and its identity. -/
structure GetIdResult where
  category : String
  id : IdentityNode
deriving DecidableEq, Repr

/-- `CacheFile` (source lines 15–21); `files` maps a uri to an optional
timestamp. -/
structure CacheFile where
  cache : ClientCache
  files : List (String × Option Nat)
  version : Nat

/-- Modelled from the spec for the parts not under `src/`: the language
service carries the shared cache file, and the document-registry lookup
(§6) `service.getId (service.parseUri uri)` is modelled as one function
from the optional uri to an optional identity result. -/
structure DatapackLanguageService where
  cacheFile : CacheFile
  getId : Option String → Option GetIdResult

/-- `getCacheVisibilities` (source lines 359–373): derive the rule set of
a declared visibility tier. -/
def getCacheVisibilities (visibility : VisTier) (definitionType : String)
    (definitionID : IdentityNode) : List CacheVisibility :=
  match visibility with
  | VisTier.priv => [⟨definitionType, definitionID.toStr⟩]
  | VisTier.internal =>
    let ns := definitionID.getNamespace
    if ns ≠ IdentityNode.DefaultNamespace then
      [⟨"*", ns ++ ":**"⟩, ⟨"*", IdentityNode.DefaultNamespace ++ ":**"⟩]
    else
      [⟨"*", ns ++ ":**"⟩]
  | VisTier.pub => [⟨"*", "**"⟩]

/-- The single-rule branch of `testID` (source lines 397–405): the
category gate followed by the anchored glob test. -/
def testIDSingle (v : CacheVisibility) (forType forID : String) : Bool :=
  if v.type != "*" && v.type != forType then false
  else globMatch (compilePattern v.pattern.data) forID.data

/-- `testID` (source lines 375–406) with its recursion unfolded: a
non-empty rule array passes if any member passes; an empty array falls
back to the configured default — a structured default recurses once into
the rule branch, a bare tier resolves the defining document's identity
and derives rules for it, defaulting to visible when the lookup fails.
(The source would recurse forever on a default that is an empty array;
the model returns `false` there, a case no theorem relies on.) -/
def testID (service : DatapackLanguageService) (visibility : List CacheVisibility)
    (forType forID : String) (definitionUri : Option String) (config : Config) : Bool :=
  match visibility with
  | v :: vs => (v :: vs).any fun w => testIDSingle w forType forID
  | [] =>
    match config.env.defaultVisibility with
    | DefaultVisibility.one v => testIDSingle v forType forID
    | DefaultVisibility.many ws => ws.any fun w => testIDSingle w forType forID
    | DefaultVisibility.tier t =>
      match service.getId definitionUri with
      | none => true
      | some r =>
        (getCacheVisibilities t r.category r.id).any fun w => testIDSingle w forType forID

/-! ## Point query, remapping, merging, trimming -/

/-- The record `getCacheFromOffset` returns (source line 166); the source
field `end` is called `stop` here. -/
structure OffsetResult where
  type : String
  id : String
  start : Nat
  stop : Nat
deriving DecidableEq, Repr

/-- `getCacheFromOffset` (source lines 158–173): nested loops with an
early `return`, modelled as nested first-hit searches over the same
iteration orders — types, then identifiers, then the three position
kinds, then the positions of that kind. -/
def getCacheFromOffset (cache : ClientCache) (offset : Nat) : Option OffsetResult :=
  cache.findSome? fun e =>
    e.2.findSome? fun iu =>
      CacheUnitPositionTypes.findSome? fun t =>
        ((kindGet iu.2 t).getD []).findSome? fun ele =>
          if ele.start ≤ offset && offset ≤ ele.stop then
            some ⟨e.1, iu.1, ele.start, ele.stop⟩
          else
            none

/-- The flat scan order of `getCacheFromOffset`: every position of the
cache tagged with its type and identifier, listed exactly in the order
the source's nested loops visit them. -/
def scanEntries (cache : ClientCache) : List (String × String × CachePosition) :=
  cache.flatMap fun e =>
    e.2.flatMap fun iu =>
      CacheUnitPositionTypes.flatMap fun t =>
        ((kindGet iu.2 t).getD []).map fun p => (e.1, iu.1, p)

/-- Modelled from the spec: an `IndexMapping` (types/IndexMapping.ts, not
under `src/`) denotes a translation of pre-edit offsets to post-edit
offsets (§4.5, glossary); it is modelled as the translation function it
denotes. -/
abbrev IndexMapping : Type := Nat → Nat

/-- Modelled from the spec: `remapTextRange` (types/TextRange.ts, not
under `src/`) replaces a position's start and end offsets by their images
under the index mapping, leaving its other fields alone (§4.5). -/
def remapTextRange (p : CachePosition) (mapping : IndexMapping) : CachePosition :=
  { p with start := mapping p.start, stop := mapping p.stop }

/-- The per-unit effect of `remapCachePosition`: `unit[t] = unit[t]!.map(...)`
guarded by `if (unit[t])`, for each of the three kinds. -/
def remapUnit (mapping : IndexMapping) (u : CacheUnit) : CacheUnit :=
  { u with
    dcl := u.dcl.map fun l => l.map fun ele => remapTextRange ele mapping
    def_ := u.def_.map fun l => l.map fun ele => remapTextRange ele mapping
    ref := u.ref.map fun l => l.map fun ele => remapTextRange ele mapping }

/-- `remapCachePosition` (source lines 175–187). -/
def remapCachePosition (cache : ClientCache) (mapping : IndexMapping) : ClientCache :=
  cache.map fun e => (e.1, e.2.map fun iu => (iu.1, remapUnit mapping iu.2))

/-- The denormalised line/column pair of the LSP `Position` values the
stamp resolver returns. -/
structure TextPosition where
  line : Nat
  character : Nat
deriving DecidableEq, Repr

/-- The optional third argument of `combineCache`: the owning document
uri (already stringified) and the offset → line/column resolver. -/
structure Addition where
  uri : String
  getPosition : Nat → TextPosition

/-- The in-place stamping `addPos` performs on each pushed position
(source lines 222–233): with an `addition` present it overwrites the
position's `uri` and the four denormalised line/column fields; without
one the position is pushed untouched. -/
def addPosStamp (addition : Option Addition) (pos : CachePosition) : CachePosition :=
  match addition with
  | none => pos
  | some a =>
    let startPos := a.getPosition pos.start
    let endPos := a.getPosition pos.stop
    { pos with
      uri := some a.uri
      startLine := some startPos.line
      startChar := some startPos.character
      endLine := some endPos.line
      endChar := some endPos.character }

/-- Does an override unit take part in the merge (source line 238)?
`overrideUnit.dcl?.length || … || overrideUnit.doc`, where the last test
is JavaScript truthiness: present and non-empty. -/
def unitParticipates (u : CacheUnit) : Bool :=
  !(u.dcl.getD []).isEmpty || !(u.def_.getD []).isEmpty || !(u.ref.getD []).isEmpty ||
    !(u.doc.getD "").isEmpty

/-- One kind's sequence after the merge loop (source lines 240–245): if
the override has no position of the kind the loop body never runs and
the base sequence — possibly still absent — is untouched; otherwise the
base sequence is defaulted to `[]` and every override position is
stamped and appended. -/
def combinePosLists (addition : Option Addition)
    (b o : Option (List CachePosition)) : Option (List CachePosition) :=
  match o.getD [] with
  | [] => b
  | ps => some (b.getD [] ++ ps.map (addPosStamp addition))

/-- A participating unit folded into the matching base unit: positions
appended per kind, documentation replaced only when the override's is
present and non-empty (source lines 240–248). -/
def combineUnit (addition : Option Addition) (ansUnit overrideUnit : CacheUnit) : CacheUnit :=
  ⟨if !(overrideUnit.doc.getD "").isEmpty then overrideUnit.doc else ansUnit.doc,
    combinePosLists addition ansUnit.dcl overrideUnit.dcl,
    combinePosLists addition ansUnit.def_ overrideUnit.def_,
    combinePosLists addition ansUnit.ref overrideUnit.ref⟩

/-- `getSafeCategory` (source lines 436–439). -/
def getSafeCategory (cache : ClientCache) (type : String) : CacheCategory :=
  (lookupKey cache type).getD []

/-- The body of `combineCache`'s inner loop for one override unit:
skip a non-participating unit; otherwise run `initUnit` (fetch-or-create
the category and the unit) and store the combined unit back. -/
def combineEntry (addition : Option Addition) (ans : ClientCache)
    (type id : String) (overrideUnit : CacheUnit) : ClientCache :=
  if unitParticipates overrideUnit then
    let ansCategory := getSafeCategory ans type
    let ansUnit := (lookupKey ansCategory id).getD emptyUnit
    setKey ans type (setKey ansCategory id (combineUnit addition ansUnit overrideUnit))
  else
    ans

/-- `combineCache`'s loop over one override category. -/
def combineCategory (addition : Option Addition) (ans : ClientCache)
    (type : String) (category : CacheCategory) : ClientCache :=
  category.foldl (fun ans iu => combineEntry addition ans type iu.1 iu.2) ans

/-- `combineCache` (source lines 213–253): fold the override into the
base, which the source mutates and returns. -/
def combineCache (base override : ClientCache) (addition : Option Addition) : ClientCache :=
  override.foldl (fun ans e => combineCategory addition ans e.1 e.2) base

/-- The stamping `combineCache` performs in place on a participating
override unit: every position of each kind is the very object pushed
into the base, so its `uri` and line/column fields are overwritten by
`addPos`; the unit's other fields are untouched. -/
def stampUnit (addition : Option Addition) (u : CacheUnit) : CacheUnit :=
  { u with
    dcl := u.dcl.map fun l => l.map (addPosStamp addition)
    def_ := u.def_.map fun l => l.map (addPosStamp addition)
    ref := u.ref.map fun l => l.map (addPosStamp addition) }

/-- The value of the override argument after `combineCache(base,
override, addition)` returns: the merge loop writes through the position
objects shared with the base for every participating unit and touches
nothing else of the override. -/
def combineOverrideAfter (override : ClientCache) (addition : Option Addition) : ClientCache :=
  override.map fun e =>
    (e.1, e.2.map fun iu => (iu.1, if unitParticipates iu.2 then stampUnit addition iu.2 else iu.2))

/-- Does a unit keep a trimmed cache entry alive (source line 349)?
`!unit.dcl?.length && !unit.def?.length && !unit.ref?.length` deletes
the unit, so it survives iff some sequence is present and non-empty. -/
def unitHasPositions (u : CacheUnit) : Bool :=
  !(u.dcl.getD []).isEmpty || !(u.def_.getD []).isEmpty || !(u.ref.getD []).isEmpty

/-- `trimCache` (source lines 344–357): drop every unit with all three
sequences empty (documentation notwithstanding), then drop every
category left empty. -/
def trimCache (cache : ClientCache) : ClientCache :=
  (cache.map fun e => (e.1, e.2.filter fun iu => unitHasPositions iu.2)).filter
    fun e => !e.2.isEmpty

/-! ## The identity-scoped snapshot `getCacheForID` -/

/-- The visibility test a position must pass to stay in the snapshot:
`testID(service, p.visibility, forType, forID, p.uri, config)`, where an
absent rule set reaches `testID` as its `[]` default. -/
def passesVisibility (service : DatapackLanguageService) (forType forID : String)
    (config : Config) (p : CachePosition) : Bool :=
  testID service (p.visibility.getD []) forType forID p.uri config

/-- The local helper `trimPositions` of `getCacheForID` (source lines
412–414): `unit[t] = unit[t]?.filter(...)` for `t` one of `dcl`, `def`. -/
def trimPositions (service : DatapackLanguageService) (forType forID : String)
    (config : Config) (u : CacheUnit) (t : PosKind) : CacheUnit :=
  kindSet u t ((kindGet u t).map fun l => l.filter (passesVisibility service forType forID config))

/-- Structural rebuild of a position: the per-leaf work of the `rfdc`
deep clone `getCacheForID` takes before filtering. -/
def clonePosition (p : CachePosition) : CachePosition :=
  ⟨p.start, p.stop, p.uri, p.visibility, p.scope, p.startLine, p.startChar, p.endLine, p.endChar⟩

/-- Structural rebuild of a unit. -/
def cloneUnit (u : CacheUnit) : CacheUnit :=
  ⟨u.doc,
    u.dcl.map fun l => l.map clonePosition,
    u.def_.map fun l => l.map clonePosition,
    u.ref.map fun l => l.map clonePosition⟩

/-- Structural rebuild of a whole cache: the model of
`rfdc()(service.cacheFile.cache)` — a fresh value built level by level,
sharing nothing with its input. -/
def cloneCache (cache : ClientCache) : ClientCache :=
  cache.map fun e => (e.1, e.2.map fun iu => (iu.1, cloneUnit iu.2))

/-- The filtering loop of `getCacheForID` (source lines 416–432) applied
to the already-cloned cache `ans`: filter `dcl` then `def` of every
unit, delete units left with no visible declaration or definition, then
delete categories left empty. -/
def getCacheForIDBody (service : DatapackLanguageService) (forType forID : String)
    (config : Config) (ans : ClientCache) : ClientCache :=
  (ans.map fun e =>
    (e.1,
      (e.2.map fun iu =>
        (iu.1,
          trimPositions service forType forID config
            (trimPositions service forType forID config iu.2 PosKind.dcl) PosKind.def_)).filter
        fun iu => !(iu.2.dcl.getD []).isEmpty || !(iu.2.def_.getD []).isEmpty)).filter
    fun e => !e.2.isEmpty

/-- `getCacheForID` (source lines 411–434): deep-copy the shared cache,
then filter the copy. -/
def getCacheForID (service : DatapackLanguageService) (forType forID : String)
    (config : Config) : ClientCache :=
  getCacheForIDBody service forType forID config (cloneCache service.cacheFile.cache)

/-- One unit of the identity-scoped view, written from the corrected
claim's words: keep only the visible declarations and definitions, keep
the references and the documentation untouched, and drop the unit when
no declaration or definition is left visible. -/
def viewUnit (service : DatapackLanguageService) (forType forID : String)
    (config : Config) (u : CacheUnit) : Option CacheUnit :=
  let d := u.dcl.map fun l => l.filter (passesVisibility service forType forID config)
  let f := u.def_.map fun l => l.filter (passesVisibility service forType forID config)
  if (d.getD []).isEmpty && (f.getD []).isEmpty then none
  else some ⟨u.doc, d, f, u.ref⟩

/-- The identity-scoped view of the shared cache, written from the
corrected claim's words: per category the surviving units, and only the
non-empty categories. -/
def getForIdentityView (service : DatapackLanguageService) (forType forID : String)
    (config : Config) : ClientCache :=
  service.cacheFile.cache.filterMap fun e =>
    let category := e.2.filterMap fun iu =>
      (viewUnit service forType forID config iu.2).map fun u => (iu.1, u)
    if category.isEmpty then none else some (e.1, category)

/-! ## Projections used by the frame theorems -/

/-- Everything of a position except the fields `addPos` may stamp
(`uri` and the four line/column fields). -/
def posCore (p : CachePosition) : Nat × Nat × Option (List CacheVisibility) × Option TextRange :=
  (p.start, p.stop, p.visibility, p.scope)

/-- A unit with each position reduced to its stamp-independent core;
the `Option` structure of the three sequences is kept. -/
def unitCore (u : CacheUnit) :
    Option String × Option (List (Nat × Nat × Option (List CacheVisibility) × Option TextRange))
      × Option (List (Nat × Nat × Option (List CacheVisibility) × Option TextRange))
      × Option (List (Nat × Nat × Option (List CacheVisibility) × Option TextRange)) :=
  (u.doc, u.dcl.map fun l => l.map posCore, u.def_.map fun l => l.map posCore,
    u.ref.map fun l => l.map posCore)

/-- A cache with every unit reduced to its stamp-independent core. -/
def cacheCore (cache : ClientCache) :=
  cache.map fun e => (e.1, e.2.map fun iu => (iu.1, unitCore iu.2))

/-- `CacheVersion` (source line 11). -/
def CacheVersion : Nat := 10

/-- A minimal concrete language service for the concrete instances: an
empty shared cache and a document registry that resolves nothing. -/
def sampleService : DatapackLanguageService :=
  ⟨⟨[], [], CacheVersion⟩, fun _ => none⟩

/-- A concrete configuration whose default visibility is the bare
`public` tier. -/
def sampleConfig : Config :=
  ⟨⟨DefaultVisibility.tier VisTier.pub⟩⟩

/-! ## Association-list and glob lemmas -/

theorem lookupKey_setKey_self {α : Type} (l : List (String × α)) (k : String) (v : α) :
    lookupKey (setKey l k v) k = some v := by
  induction l with
  | nil => simp [setKey, lookupKey]
  | cons e rest ih =>
    by_cases h : e.1 = k <;> simp [setKey, lookupKey, h, ih]

theorem lookupKey_setKey_ne {α : Type} (l : List (String × α)) (k k' : String) (v : α)
    (h : k' ≠ k) : lookupKey (setKey l k v) k' = lookupKey l k' := by
  have h' : k ≠ k' := Ne.symm h
  induction l with
  | nil => simp [setKey, lookupKey, h']
  | cons e rest ih =>
    by_cases he : e.1 = k
    · subst he
      simp [setKey, lookupKey, h']
    · simp [setKey, lookupKey, he, ih]

theorem plainChar_not_meta {c : Char} (h : plainChar c = true) :
    c ≠ '?' ∧ c ≠ '*' ∧ c ≠ '.' := by
  refine ⟨?_, ?_, ?_⟩ <;> rintro rfl <;> exact absurd h (by decide)

theorem compilePattern_cons_plain {c : Char} (rest : List Char)
    (h1 : c ≠ '?') (h2 : c ≠ '*') (h3 : c ≠ '.') :
    compilePattern (c :: rest) = GlobTok.lit c :: compilePattern rest := by
  rw [compilePattern.eq_def]
  split <;> simp_all

theorem compilePattern_plain : ∀ {l : List Char}, (∀ c ∈ l, plainChar c = true) →
    compilePattern l = l.map GlobTok.lit
  | [], _ => rfl
  | c :: rest, h => by
    obtain ⟨h1, h2, h3⟩ := plainChar_not_meta (h c (List.mem_cons_self c rest))
    rw [compilePattern_cons_plain rest h1 h2 h3, List.map_cons,
      compilePattern_plain fun c hc => h c (List.mem_cons_of_mem _ hc)]

theorem globMatch_lit_map : ∀ (l s : List Char), (globMatch (l.map GlobTok.lit) s = true) ↔ s = l
  | [], s => by cases s <;> simp [globMatch]
  | c :: rest, s => by
    cases s with
    | nil => simp [globMatch]
    | cons x xs =>
      simp [globMatch, globMatch_lit_map rest xs, And.comm]

theorem trimCategory_idem (category : CacheCategory) :
    ((category.filter fun iu => unitHasPositions iu.2).filter fun iu => unitHasPositions iu.2)
      = category.filter fun iu => unitHasPositions iu.2 := by
  rw [List.filter_filter]
  simp

/-- C4: `trimCache` is idempotent, and a trimmed cache contains no unit
whose declaration, definition and reference sequences are all empty
(a doc-only unit is removed as well) and no empty category. -/
theorem trimCache_idempotent_and_clean (cache : ClientCache) :
    trimCache (trimCache cache) = trimCache cache ∧
    ((trimCache cache).all fun e =>
      !e.2.isEmpty && e.2.all fun iu => unitHasPositions iu.2) = true := by
  constructor
  · induction cache with
    | nil => rfl
    | cons e tl ih =>
      by_cases h : (e.2.filter fun iu => unitHasPositions iu.2).isEmpty
      · have h1 : trimCache (e :: tl) = trimCache tl := by
          simp [trimCache, List.filter_cons, h]
        rw [h1, ih]
      · have h1 : trimCache (e :: tl)
            = (e.1, e.2.filter fun iu => unitHasPositions iu.2) :: trimCache tl := by
          simp [trimCache, List.filter_cons, h]
        rw [h1]
        have h2 : trimCache ((e.1, e.2.filter fun iu => unitHasPositions iu.2) :: trimCache tl)
            = (e.1, e.2.filter fun iu => unitHasPositions iu.2) :: trimCache (trimCache tl) := by
          simp [trimCache, List.filter_cons, trimCategory_idem, h]
        rw [h2, ih]
  · rw [List.all_eq_true]
    intro x hx
    rw [trimCache, List.mem_filter, List.mem_map] at hx
    obtain ⟨⟨e, _, rfl⟩, hq⟩ := hx
    rw [Bool.and_eq_true]
    exact ⟨hq, List.all_eq_true.mpr fun iu hiu => (List.mem_filter.mp hiu).2⟩

/-- C7: behaviour of the compiled, fully-anchored glob matcher through
`testID` with a wildcard-type rule: `foo:**` matches `foo:bar/baz` and
`foo:`, `foo:*` matches `foo:bar` but not `foo:bar/baz`, and `?oo:bar`
matches `foo:bar` but not `fooo:bar`. -/
theorem testID_glob_examples :
    testID sampleService [⟨"*", "foo:**"⟩] "function" "foo:bar/baz" none sampleConfig = true ∧
    testID sampleService [⟨"*", "foo:**"⟩] "function" "foo:" none sampleConfig = true ∧
    testID sampleService [⟨"*", "foo:*"⟩] "function" "foo:bar" none sampleConfig = true ∧
    testID sampleService [⟨"*", "foo:*"⟩] "function" "foo:bar/baz" none sampleConfig = false ∧
    testID sampleService [⟨"*", "?oo:bar"⟩] "function" "foo:bar" none sampleConfig = true ∧
    testID sampleService [⟨"*", "?oo:bar"⟩] "function" "fooo:bar" none sampleConfig = false := by
  decide

/-- C6: with an empty rule array, a bare tier as the default visibility,
and a defining document whose identity the service cannot resolve,
`testID` resolves the gap permissively: it returns `true`. -/
theorem testID_unresolved_defaults_visible (service : DatapackLanguageService)
    (forType forID : String) (definitionUri : Option String) (config : Config) (t : VisTier)
    (hdefault : config.env.defaultVisibility = DefaultVisibility.tier t)
    (hid : service.getId definitionUri = none) :
    testID service [] forType forID definitionUri config = true := by
  simp [testID, hdefault, hid]

/-- Witness for C6: a concrete service that resolves no identity, a
concrete bare-tier configuration, and the resulting visible verdict. -/
theorem testID_unresolved_defaults_visible_witness :
    (⟨⟨DefaultVisibility.tier VisTier.priv⟩⟩ : Config).env.defaultVisibility
        = DefaultVisibility.tier VisTier.priv ∧
    DatapackLanguageService.getId ⟨⟨[], [], CacheVersion⟩, fun _ => none⟩ (some "file:///pack/a.mcfunction") = none ∧
    testID ⟨⟨[], [], CacheVersion⟩, fun _ => none⟩ [] "function" "a:b"
      (some "file:///pack/a.mcfunction") ⟨⟨DefaultVisibility.tier VisTier.priv⟩⟩ = true :=
  ⟨rfl, rfl,
    testID_unresolved_defaults_visible _ "function" "a:b" (some "file:///pack/a.mcfunction") _
      VisTier.priv rfl rfl⟩

theorem map_addPosStamp_none (l : List CachePosition) : l.map (addPosStamp none) = l := by
  induction l with
  | nil => rfl
  | cons p t ih => simp [addPosStamp, ih]

theorem stampUnit_none (u : CacheUnit) : stampUnit none u = u := by
  cases u with
  | mk doc dcl def_ ref =>
    cases dcl <;> cases def_ <;> cases ref <;> simp [stampUnit, map_addPosStamp_none]

theorem posCore_addPosStamp (a : Option Addition) (p : CachePosition) :
    posCore (addPosStamp a p) = posCore p := by
  cases a <;> rfl

theorem unitCore_stampUnit (a : Option Addition) (u : CacheUnit) :
    unitCore (stampUnit a u) = unitCore u := by
  cases u with
  | mk doc dcl def_ ref =>
    cases dcl <;> cases def_ <;> cases ref <;>
      simp [unitCore, stampUnit, List.map_map, Function.comp_def, posCore_addPosStamp]

theorem unitCore_stamp_ite (a : Option Addition) (u : CacheUnit) :
    unitCore (if unitParticipates u then stampUnit a u else u) = unitCore u := by
  by_cases h : unitParticipates u <;> simp [h, unitCore_stampUnit]

/-- C2 counterexample: with a stamp descriptor supplied, `combineCache`
overwrites the `uri` and line/column fields of the override's position
objects in place — the override is not left unchanged. -/
theorem combineCache_override_mutated_cex :
    combineOverrideAfter
        [("function",
          [("foo:a", ⟨none, some [⟨0, 1, none, none, none, none, none, none, none⟩], none, none⟩)])]
        (some ⟨"file:///pack/data/foo/functions/a.mcfunction", fun _ => ⟨0, 0⟩⟩) ≠
      [("function",
        [("foo:a", ⟨none, some [⟨0, 1, none, none, none, none, none, none, none⟩], none, none⟩)])] := by
  decide

/-- C2 (amended): `combineCache` leaves its override argument unchanged
when no stamp descriptor is supplied; with a stamp descriptor it
overwrites, in place, exactly the `uri` and line/column fields of the
positions of participating override units — the override's categories,
identifiers, unit structure, documentation strings, ranges, scopes and
visibility rules are all preserved. -/
theorem combineCache_override_frame (override : ClientCache) (addition : Option Addition) :
    combineOverrideAfter override none = override ∧
    cacheCore (combineOverrideAfter override addition) = cacheCore override := by
  constructor
  · simp [combineOverrideAfter, stampUnit_none]
  · simp [cacheCore, combineOverrideAfter, List.map_map, Function.comp_def, unitCore_stamp_ite]

theorem getD_map_length {α β : Type} (f : α → β) (o : Option (List α)) :
    ((o.map fun l => l.map f).getD []).length = (o.getD []).length := by
  cases o <;> simp

/-- C10: `remapCachePosition` changes only the position entries: the
cache types, the identifiers of every category, every unit's
documentation and the length of each of the three sequences are
preserved, and each sequence becomes, in order, the image of the
original sequence under the modelled `remapTextRange`. -/
theorem remapCachePosition_frame (cache : ClientCache) (mapping : IndexMapping) :
    (remapCachePosition cache mapping).map Prod.fst = cache.map Prod.fst ∧
    (remapCachePosition cache mapping).map (fun e => e.2.map Prod.fst)
      = cache.map (fun e => e.2.map Prod.fst) ∧
    (remapCachePosition cache mapping).map (fun e => e.2.map fun iu => iu.2.doc)
      = cache.map (fun e => e.2.map fun iu => iu.2.doc) ∧
    (remapCachePosition cache mapping).map (fun e => e.2.map fun iu =>
        ((iu.2.dcl.getD []).length, (iu.2.def_.getD []).length, (iu.2.ref.getD []).length))
      = cache.map (fun e => e.2.map fun iu =>
        ((iu.2.dcl.getD []).length, (iu.2.def_.getD []).length, (iu.2.ref.getD []).length)) ∧
    (remapCachePosition cache mapping).map (fun e => e.2.map fun iu =>
        (iu.2.dcl, iu.2.def_, iu.2.ref))
      = cache.map (fun e => e.2.map fun iu =>
        (iu.2.dcl.map fun l => l.map fun ele => remapTextRange ele mapping,
          iu.2.def_.map fun l => l.map fun ele => remapTextRange ele mapping,
          iu.2.ref.map fun l => l.map fun ele => remapTextRange ele mapping)) := by
  refine ⟨?_, ?_, ?_, ?_, ?_⟩ <;>
    simp [remapCachePosition, remapUnit, List.map_map, Function.comp_def, getD_map_length]

theorem isFileType_ne_star {t : String} (h : isFileType t = true) : t ≠ "*" := by
  rintro rfl
  exact absurd h (by decide)

/-- C5 counterexample: the private rule's pattern is the defining
identity's string spliced into a regular expression without escaping, so
a defining identity containing `.` also matches a different requesting
identity in the defining category — the test is not exact equality. -/
theorem testID_private_not_exact_cex :
    testID sampleService
        (getCacheVisibilities VisTier.priv "function" ⟨some "foo", "a.b"⟩)
        "function" "foo:axb" none sampleConfig = true ∧
    ("foo:axb" : String) ≠ IdentityNode.toStr ⟨some "foo", "a.b"⟩ ∧
    isFileType "function" = true := by
  decide

/-- C5 (amended): for a defining file type and a defining identity whose
string form contains only plain characters (alphanumerics and `:` `/`
`_` `-` — no glob or regex metacharacters), the private rule set passes
`testID` exactly when the requesting category equals the defining
category and the requesting identity's string form equals the defining
identity's; identities containing metacharacters such as `.` can also
match other identities. -/
theorem testID_private_exact (service : DatapackLanguageService) (defType : String)
    (defID : IdentityNode) (forType forID : String) (definitionUri : Option String)
    (config : Config)
    (hft : isFileType defType = true)
    (hplain : ∀ c ∈ (IdentityNode.toStr defID).data, plainChar c = true) :
    (testID service (getCacheVisibilities VisTier.priv defType defID) forType forID
        definitionUri config = true)
      ↔ (forType = defType ∧ forID = IdentityNode.toStr defID) := by
  have hstar : defType ≠ "*" := isFileType_ne_star hft
  have hcomp : compilePattern (IdentityNode.toStr defID).data
      = (IdentityNode.toStr defID).data.map GlobTok.lit := compilePattern_plain hplain
  by_cases hT : forType = defType
  · subst hT
    simp only [getCacheVisibilities, testID, List.any_cons, List.any_nil, Bool.or_false,
      testIDSingle, bne_self_eq_false, Bool.and_false, Bool.false_eq_true, if_false, hcomp,
      globMatch_lit_map, true_and]
    constructor
    · intro h
      exact String.ext h
    · rintro rfl
      rfl
  · simp only [getCacheVisibilities, testID, List.any_cons, List.any_nil, Bool.or_false,
      testIDSingle]
    have hbne : (defType != "*") = true := by
      simp [bne_iff_ne, hstar]
    have hbne2 : (defType != forType) = true := by
      simp [bne_iff_ne]
      exact fun hh => hT hh.symm
    rw [hbne, hbne2]
    simp [hT]

/-- Witness for C5: the equivalence instantiated at a plain concrete
identity, where both sides hold. -/
theorem testID_private_exact_witness :
    isFileType "function" = true ∧
    (∀ c ∈ (IdentityNode.toStr ⟨some "foo", "bar"⟩).data, plainChar c = true) ∧
    (testID sampleService (getCacheVisibilities VisTier.priv "function" ⟨some "foo", "bar"⟩)
        "function" "foo:bar" none sampleConfig = true ↔
      ("function" = "function" ∧ "foo:bar" = IdentityNode.toStr ⟨some "foo", "bar"⟩)) :=
  ⟨by decide, by decide,
    testID_private_exact sampleService "function" ⟨some "foo", "bar"⟩ "function" "foo:bar" none
      sampleConfig (by decide) (by decide)⟩

theorem findSome?_map {α β γ : Type} (g : α → β) (f : β → Option γ) : ∀ (l : List α),
    (l.map g).findSome? f = l.findSome? fun a => f (g a)
  | [] => rfl
  | x :: xs => by
    cases h : f (g x) <;>
      simp [List.findSome?_cons, h, findSome?_map g f xs]

theorem findSome?_flatMap {α β γ : Type} (g : α → List β) (f : β → Option γ) : ∀ (l : List α),
    (l.flatMap g).findSome? f = l.findSome? fun a => (g a).findSome? f
  | [] => rfl
  | x :: xs => by
    rw [List.flatMap_cons, List.findSome?_append, findSome?_flatMap g f xs]
    cases h : (g x).findSome? f <;> simp [List.findSome?_cons, h, Option.or]

theorem find?_map_eq_findSome? {α β : Type} (p : α → Bool) (f : α → β) : ∀ (l : List α),
    (l.find? p).map f = l.findSome? fun a => if p a then some (f a) else none
  | [] => rfl
  | x :: xs => by
    by_cases h : p x <;>
      simp [List.find?_cons, List.findSome?_cons, h, find?_map_eq_findSome? p f xs]

/-- C8: the point query scans all types, then all identifiers, then the
three position kinds, in iteration order, and returns the first entry
whose range contains the offset inclusively at both endpoints: it equals
the first hit of the flattened scan list.  Being a function of the cache
and the offset, it is deterministic. -/
theorem getCacheFromOffset_first_hit (cache : ClientCache) (offset : Nat) :
    getCacheFromOffset cache offset
      = ((scanEntries cache).find? fun en =>
            en.2.2.start ≤ offset && offset ≤ en.2.2.stop).map
          fun en => ⟨en.1, en.2.1, en.2.2.start, en.2.2.stop⟩ := by
  rw [find?_map_eq_findSome?]
  unfold scanEntries getCacheFromOffset
  simp only [findSome?_flatMap, findSome?_map]

theorem clonePosition_eq (p : CachePosition) : clonePosition p = p := rfl

theorem map_clonePosition_eq (l : List CachePosition) : l.map clonePosition = l := by
  induction l with
  | nil => rfl
  | cons p t ih => rw [List.map_cons, clonePosition_eq, ih]

theorem cloneUnit_eq (u : CacheUnit) : cloneUnit u = u := by
  cases u with
  | mk doc dcl def_ ref =>
    cases dcl <;> cases def_ <;> cases ref <;> simp [cloneUnit, map_clonePosition_eq]

theorem cloneCache_eq (cache : ClientCache) : cloneCache cache = cache := by
  induction cache with
  | nil => rfl
  | cons e tl ih =>
    have hcat : (e.2.map fun iu => (iu.1, cloneUnit iu.2)) = e.2 := by
      induction e.2 with
      | nil => rfl
      | cons iu ct ihc => simp [cloneUnit_eq, ihc]
    simp only [cloneCache, List.map_cons] at ih ⊢
    rw [hcat, ih]

/-- C9: `getCacheForID` is pure with respect to the shared cache: the
filtering loop runs on the `rfdc` deep copy — modelled by the structural
rebuild `cloneCache`, sharing no constructor with its input — so the
call equals the pure filter of the input cache's value and the modelled
deep copy reproduces that value exactly; the service's cache is never
written. -/
theorem getCacheForID_pure (service : DatapackLanguageService) (forType forID : String)
    (config : Config) :
    getCacheForID service forType forID config
      = getCacheForIDBody service forType forID config service.cacheFile.cache ∧
    cloneCache service.cacheFile.cache = service.cacheFile.cache := by
  constructor
  · rw [getCacheForID, cloneCache_eq]
  · exact cloneCache_eq _

theorem trimPositions_both (service : DatapackLanguageService) (ft fid : String)
    (config : Config) (u : CacheUnit) :
    trimPositions service ft fid config (trimPositions service ft fid config u PosKind.dcl)
        PosKind.def_
      = ⟨u.doc, u.dcl.map fun l => l.filter (passesVisibility service ft fid config),
          u.def_.map fun l => l.filter (passesVisibility service ft fid config), u.ref⟩ := by
  cases u
  rfl

theorem getCacheForID_category (service : DatapackLanguageService) (ft fid : String)
    (config : Config) (category : CacheCategory) :
    ((category.map fun iu =>
        (iu.1,
          trimPositions service ft fid config
            (trimPositions service ft fid config iu.2 PosKind.dcl) PosKind.def_)).filter
      fun iu => !(iu.2.dcl.getD []).isEmpty || !(iu.2.def_.getD []).isEmpty)
      = category.filterMap fun iu =>
          (viewUnit service ft fid config iu.2).map fun u => (iu.1, u) := by
  induction category with
  | nil => rfl
  | cons iu tl ih =>
    rw [List.map_cons, List.filter_cons, List.filterMap_cons, trimPositions_both, ih]
    by_cases h :
        (((iu.2.dcl.map fun l =>
              l.filter (passesVisibility service ft fid config)).getD []).isEmpty
          && ((iu.2.def_.map fun l =>
              l.filter (passesVisibility service ft fid config)).getD []).isEmpty) = true
    · rw [Bool.and_eq_true] at h
      simp [viewUnit, h.1, h.2]
    · rw [Bool.and_eq_true] at h
      push_neg at h
      by_cases h1 :
          ((iu.2.dcl.map fun l =>
              l.filter (passesVisibility service ft fid config)).getD []).isEmpty = true
      · simp [viewUnit, h1, h h1]
      · simp [viewUnit, h1]

theorem getCacheForIDBody_eq_view_of (service : DatapackLanguageService) (ft fid : String)
    (config : Config) (cache : ClientCache) :
    getCacheForIDBody service ft fid config cache
      = cache.filterMap fun e =>
          let category := e.2.filterMap fun iu =>
            (viewUnit service ft fid config iu.2).map fun u => (iu.1, u)
          if category.isEmpty then none else some (e.1, category) := by
  induction cache with
  | nil => rfl
  | cons e tl ih =>
    unfold getCacheForIDBody at ih ⊢
    rw [List.map_cons, List.filter_cons, List.filterMap_cons, getCacheForID_category, ih]
    by_cases h : (e.2.filterMap fun iu =>
        (viewUnit service ft fid config iu.2).map fun u => (iu.1, u)).isEmpty = true
    · simp [h]
    · simp [h]

/-- C1 counterexample: a unit that survives the identity-scoped snapshot
through a visible declaration keeps its reference positions in the
returned view, so reference positions are not excluded from the result
of `getCacheForID`. -/
theorem getCacheForID_keeps_references_cex :
    (lookupUnit
        (getCacheForID
          ⟨⟨[("function",
              [("foo:a",
                ⟨none,
                  some [⟨0, 1, none, some [⟨"*", "**"⟩], none, none, none, none, none⟩],
                  none,
                  some [⟨5, 6, none, none, none, none, none, none, none⟩]⟩)])],
            [], CacheVersion⟩, fun _ => none⟩
          "function" "b:y" sampleConfig)
        "function" "foo:a").map (fun u => (u.ref.getD []).length) = some 1 := by
  decide

/-- C1 (amended): `getCacheForID` equals the identity-scoped view built
from the corrected claim's words — declarations and definitions filtered
to the ones passing the visibility test for the requester, reference
sequences and documentation of surviving units copied unchanged, units
with no visible declaration or definition dropped, then empty categories
dropped; consequently the result has no empty category, every unit of it
has a visible declaration or definition, and every declaration and
definition position it contains passes the visibility test. -/
theorem getCacheForID_spec (service : DatapackLanguageService) (forType forID : String)
    (config : Config) :
    getCacheForID service forType forID config = getForIdentityView service forType forID config ∧
    ((getCacheForID service forType forID config).all fun e => !e.2.isEmpty) = true ∧
    ((getCacheForID service forType forID config).all fun e => e.2.all fun iu =>
        !(iu.2.dcl.getD []).isEmpty || !(iu.2.def_.getD []).isEmpty) = true ∧
    ((getCacheForID service forType forID config).all fun e => e.2.all fun iu =>
        ((iu.2.dcl.getD []) ++ (iu.2.def_.getD [])).all fun p =>
          passesVisibility service forType forID config p) = true := by
  have hb : getCacheForID service forType forID config
      = getCacheForIDBody service forType forID config service.cacheFile.cache := by
    rw [getCacheForID, cloneCache_eq]
  refine ⟨?_, ?_, ?_, ?_⟩
  · rw [hb, getCacheForIDBody_eq_view_of]
    rfl
  · rw [hb]
    unfold getCacheForIDBody
    rw [List.all_eq_true]
    intro x hx
    exact (List.mem_filter.mp hx).2
  · rw [hb]
    unfold getCacheForIDBody
    rw [List.all_eq_true]
    intro x hx
    obtain ⟨hmem, _⟩ := List.mem_filter.mp hx
    obtain ⟨e, _, rfl⟩ := List.mem_map.mp hmem
    rw [List.all_eq_true]
    intro iu hiu
    exact (List.mem_filter.mp hiu).2
  · rw [hb]
    unfold getCacheForIDBody
    rw [List.all_eq_true]
    intro x hx
    obtain ⟨hmem, _⟩ := List.mem_filter.mp hx
    obtain ⟨e, _, rfl⟩ := List.mem_map.mp hmem
    rw [List.all_eq_true]
    intro iu hiu
    obtain ⟨hiu2, _⟩ := List.mem_filter.mp hiu
    obtain ⟨iu0, _, rfl⟩ := List.mem_map.mp hiu2
    rw [trimPositions_both, List.all_eq_true]
    intro p hp
    rw [List.mem_append] at hp
    rcases hp with hp | hp
    · cases hdcl : iu0.2.dcl with
      | none => rw [hdcl] at hp; simp at hp
      | some l =>
        rw [hdcl] at hp
        simp only [Option.map_some, Option.getD_some] at hp
        exact (List.mem_filter.mp hp).2
    · cases hdef : iu0.2.def_ with
      | none => rw [hdef] at hp; simp at hp
      | some l =>
        rw [hdef] at hp
        simp only [Option.map_some, Option.getD_some] at hp
        exact (List.mem_filter.mp hp).2

theorem lookupKey_eq_none_iff {α : Type} (l : List (String × α)) (k : String) :
    lookupKey l k = none ↔ ∀ e ∈ l, e.1 ≠ k := by
  induction l with
  | nil => simp [lookupKey]
  | cons e rest ih =>
    by_cases h : e.1 = k <;> simp [lookupKey, h, ih]

theorem lookupKey_mem {α : Type} {l : List (String × α)} {k : String} {v : α}
    (h : lookupKey l k = some v) : (k, v) ∈ l := by
  induction l with
  | nil => simp [lookupKey] at h
  | cons e rest ih =>
    by_cases he : e.1 = k
    · rw [lookupKey, if_pos he] at h
      obtain rfl : e.2 = v := Option.some_injective _ h
      have hke : (k, e.2) = e := by rw [← he]
      rw [hke]
      exact List.mem_cons_self e rest
    · rw [lookupKey, if_neg he] at h
      exact List.mem_cons_of_mem _ (ih h)

theorem lookupUnit_combineEntry_self (addition : Option Addition) (ans : ClientCache)
    (t id : String) (u : CacheUnit) (hp : unitParticipates u = true) :
    lookupUnit (combineEntry addition ans t id u) t id
      = some (combineUnit addition ((lookupUnit ans t id).getD emptyUnit) u) := by
  unfold combineEntry
  rw [if_pos hp]
  unfold lookupUnit getSafeCategory
  rw [lookupKey_setKey_self, Option.some_bind, lookupKey_setKey_self]
  congr 2
  cases lookupKey ans t <;> simp [lookupKey]

theorem lookupUnit_combineEntry_other (addition : Option Addition) (ans : ClientCache)
    (t' id' t id : String) (u : CacheUnit) (h : ¬(t' = t ∧ id' = id)) :
    lookupUnit (combineEntry addition ans t' id' u) t id = lookupUnit ans t id := by
  unfold combineEntry
  by_cases hp : unitParticipates u
  · rw [if_pos hp]
    unfold lookupUnit
    by_cases ht : t' = t
    · subst ht
      have hid : id ≠ id' := fun hh => h ⟨rfl, hh.symm⟩
      rw [lookupKey_setKey_self, Option.some_bind, lookupKey_setKey_ne _ _ _ _ hid]
      unfold getSafeCategory
      cases lookupKey ans t' <;> simp [lookupKey]
    · rw [lookupKey_setKey_ne _ _ _ _ fun hh => ht hh.symm]
  · rw [if_neg hp]

theorem lookupUnit_combineCategory_other_type (addition : Option Addition) (t' t id : String)
    (ht : t' ≠ t) :
    ∀ (category : CacheCategory) (ans : ClientCache),
      lookupUnit (combineCategory addition ans t' category) t id = lookupUnit ans t id
  | [], _ => rfl
  | iu :: rest, ans => by
    have h1 : combineCategory addition ans t' (iu :: rest)
        = combineCategory addition (combineEntry addition ans t' iu.1 iu.2) t' rest := rfl
    rw [h1, lookupUnit_combineCategory_other_type addition t' t id ht rest _,
      lookupUnit_combineEntry_other addition ans t' iu.1 t id iu.2 fun hh => ht hh.1]

theorem lookupUnit_combineCategory_id_absent (addition : Option Addition) (t' t id : String) :
    ∀ (category : CacheCategory), (∀ e ∈ category, e.1 ≠ id) → ∀ (ans : ClientCache),
      lookupUnit (combineCategory addition ans t' category) t id = lookupUnit ans t id
  | [], _, _ => rfl
  | iu :: rest, hid, ans => by
    have h1 : combineCategory addition ans t' (iu :: rest)
        = combineCategory addition (combineEntry addition ans t' iu.1 iu.2) t' rest := rfl
    rw [h1,
      lookupUnit_combineCategory_id_absent addition t' t id rest
        (fun e he => hid e (List.mem_cons_of_mem _ he)) _,
      lookupUnit_combineEntry_other addition ans t' iu.1 t id iu.2
        fun hh => hid iu (List.mem_cons_self _ _) hh.2]

theorem lookupUnit_combineCategory_found (addition : Option Addition) (t : String) :
    ∀ (category : CacheCategory) (id : String) (u : CacheUnit),
      (category.map Prod.fst).Nodup → lookupKey category id = some u →
      unitParticipates u = true → ∀ (ans : ClientCache),
      lookupUnit (combineCategory addition ans t category) t id
        = some (combineUnit addition ((lookupUnit ans t id).getD emptyUnit) u)
  | [], id, u, _, hlk, _, _ => by simp [lookupKey] at hlk
  | iu :: rest, id, u, hnd, hlk, hp, ans => by
    have h1 : combineCategory addition ans t (iu :: rest)
        = combineCategory addition (combineEntry addition ans t iu.1 iu.2) t rest := rfl
    rw [List.map_cons, List.nodup_cons] at hnd
    by_cases hid : iu.1 = id
    · rw [lookupKey, if_pos hid] at hlk
      obtain rfl : iu.2 = u := Option.some_injective _ hlk
      have habs : ∀ e ∈ rest, e.1 ≠ id := by
        intro e he hh
        exact hnd.1 (hid ▸ hh ▸ List.mem_map_of_mem Prod.fst he)
      rw [h1, lookupUnit_combineCategory_id_absent addition t t id rest habs _, hid,
        lookupUnit_combineEntry_self addition ans t id iu.2 hp]
    · rw [lookupKey, if_neg hid] at hlk
      rw [h1, lookupUnit_combineCategory_found addition t rest id u hnd.2 hlk hp _,
        lookupUnit_combineEntry_other addition ans t iu.1 t id iu.2 fun hh => hid hh.2]

theorem lookupUnit_combineCache_type_absent (addition : Option Addition) (t id : String) :
    ∀ (override : ClientCache), (∀ e ∈ override, e.1 ≠ t) → ∀ (base : ClientCache),
      lookupUnit (combineCache base override addition) t id = lookupUnit base t id
  | [], _, _ => rfl
  | e :: rest, habs, base => by
    have h1 : combineCache base (e :: rest) addition
        = combineCache (combineCategory addition base e.1 e.2) rest addition := rfl
    rw [h1,
      lookupUnit_combineCache_type_absent addition t id rest
        (fun x hx => habs x (List.mem_cons_of_mem _ hx)) _,
      lookupUnit_combineCategory_other_type addition e.1 t id
        (habs e (List.mem_cons_self _ _)) e.2 _]

theorem lookupUnit_combineCache_found (addition : Option Addition) (t id : String)
    (u : CacheUnit) (hp : unitParticipates u = true) :
    ∀ (override : ClientCache) (cat : CacheCategory),
      (override.map Prod.fst).Nodup → lookupKey override t = some cat →
      (cat.map Prod.fst).Nodup → lookupKey cat id = some u → ∀ (base : ClientCache),
      lookupUnit (combineCache base override addition) t id
        = some (combineUnit addition ((lookupUnit base t id).getD emptyUnit) u)
  | [], _, _, hlk, _, _, _ => by simp [lookupKey] at hlk
  | e :: rest, cat, hnd, hlk, hndc, hlkc, base => by
    have h1 : combineCache base (e :: rest) addition
        = combineCache (combineCategory addition base e.1 e.2) rest addition := rfl
    rw [List.map_cons, List.nodup_cons] at hnd
    by_cases ht : e.1 = t
    · rw [lookupKey, if_pos ht] at hlk
      obtain rfl : e.2 = cat := Option.some_injective _ hlk
      have habs : ∀ x ∈ rest, x.1 ≠ t := by
        intro x hx hh
        exact hnd.1 (ht ▸ hh ▸ List.mem_map_of_mem Prod.fst hx)
      rw [h1, lookupUnit_combineCache_type_absent addition t id rest habs _, ht,
        lookupUnit_combineCategory_found addition t e.2 id u hndc hlkc hp base]
    · rw [lookupKey, if_neg ht] at hlk
      rw [h1, lookupUnit_combineCache_found addition t id u hp rest cat hnd.2 hlk hndc hlkc _,
        lookupUnit_combineCategory_other_type addition e.1 t id ht e.2 _]

theorem kindGet_combineUnit (addition : Option Addition) (a o : CacheUnit) (k : PosKind) :
    kindGet (combineUnit addition a o) k
      = combinePosLists addition (kindGet a k) (kindGet o k) := by
  cases k <;> rfl

theorem combinePosLists_getD (addition : Option Addition) (b o : Option (List CachePosition)) :
    (combinePosLists addition b o).getD []
      = (b.getD []) ++ ((o.getD []).map (addPosStamp addition)) := by
  unfold combinePosLists
  cases ho : o.getD [] with
  | nil => simp
  | cons p ps => simp

/-- C3: for a participating override unit (at least one position of some
kind, or a non-empty doc), `combineCache` appends the override's
positions of each kind — stamped when a descriptor is supplied — after
the base's existing ones: the merged sequence is the base's sequence
followed by the override's, its length is the sum of the two lengths,
and the base's positions are its prefix, unchanged and in order.  The
`Nodup` hypotheses say the override's keys are unique, which holds for
every JavaScript object. -/
theorem combineCache_additive (base override : ClientCache) (addition : Option Addition)
    (type id : String) (k : PosKind) (u : CacheUnit)
    (hnd : (override.map Prod.fst).Nodup)
    (hndc : ∀ e ∈ override, (e.2.map Prod.fst).Nodup)
    (hu : lookupUnit override type id = some u)
    (hp : unitParticipates u = true) :
    ∃ r, lookupUnit (combineCache base override addition) type id = some r ∧
      (kindGet r k).getD []
        = ((kindGet ((lookupUnit base type id).getD emptyUnit) k).getD [])
            ++ ((kindGet u k).getD []).map (addPosStamp addition) ∧
      ((kindGet r k).getD []).length
        = ((kindGet ((lookupUnit base type id).getD emptyUnit) k).getD []).length
            + ((kindGet u k).getD []).length ∧
      ((kindGet r k).getD []).take
          ((kindGet ((lookupUnit base type id).getD emptyUnit) k).getD []).length
        = (kindGet ((lookupUnit base type id).getD emptyUnit) k).getD [] := by
  unfold lookupUnit at hu
  cases hcat : lookupKey override type with
  | none => rw [hcat] at hu; simp at hu
  | some cat =>
    rw [hcat, Option.some_bind] at hu
    have hndcat : (cat.map Prod.fst).Nodup := hndc (type, cat) (lookupKey_mem hcat)
    refine ⟨combineUnit addition ((lookupUnit base type id).getD emptyUnit) u, ?_, ?_, ?_, ?_⟩
    · exact lookupUnit_combineCache_found addition type id u hp override cat hnd hcat hndcat hu base
    · rw [kindGet_combineUnit, combinePosLists_getD]
    · rw [kindGet_combineUnit, combinePosLists_getD, List.length_append, List.length_map]
    · rw [kindGet_combineUnit, combinePosLists_getD]
      exact List.take_left _ _

/-- Witness for C3: one declaration merged, with no stamp descriptor,
into an empty base. -/
theorem combineCache_additive_witness :
    ∃ r,
      lookupUnit
          (combineCache []
            [("function",
              [("foo:a",
                ⟨none, some [⟨7, 9, none, none, none, none, none, none, none⟩], none, none⟩)])]
            none)
          "function" "foo:a" = some r ∧
      (kindGet r PosKind.dcl).getD []
        = ((kindGet ((lookupUnit [] "function" "foo:a").getD emptyUnit) PosKind.dcl).getD [])
            ++ ((kindGet
                  (⟨none, some [⟨7, 9, none, none, none, none, none, none, none⟩], none,
                    none⟩ : CacheUnit) PosKind.dcl).getD []).map (addPosStamp none) ∧
      ((kindGet r PosKind.dcl).getD []).length
        = ((kindGet ((lookupUnit [] "function" "foo:a").getD emptyUnit) PosKind.dcl).getD
              []).length
            + ((kindGet
                  (⟨none, some [⟨7, 9, none, none, none, none, none, none, none⟩], none,
                    none⟩ : CacheUnit) PosKind.dcl).getD []).length ∧
      ((kindGet r PosKind.dcl).getD []).take
          ((kindGet ((lookupUnit [] "function" "foo:a").getD emptyUnit) PosKind.dcl).getD
            []).length
        = (kindGet ((lookupUnit [] "function" "foo:a").getD emptyUnit) PosKind.dcl).getD [] :=
  combineCache_additive []
    [("function",
      [("foo:a", ⟨none, some [⟨7, 9, none, none, none, none, none, none, none⟩], none, none⟩)])]
    none "function" "foo:a" PosKind.dcl
    ⟨none, some [⟨7, 9, none, none, none, none, none, none, none⟩], none, none⟩
    (by decide) (by decide) (by decide) (by decide)
